import Mathlib

/-!
Verification of `source/blender/blenlib/BLI_fixed_array_allocator.hpp`
(class `BLI::FixedArrayAllocator`).

The allocator for fixed-length arrays is embedded shallowly:

* `uint` arithmetic is `Nat` with explicit reduction modulo `2 ^ 32`
  (`U32`) exactly where the C++ expressions can wrap
  (`element_size - 1`, `m_array_length * element_size`);
* raw pointers are abstract handles (`Ptr := Nat`); the underlying heap
  (`MEM_mallocN_aligned`) is modelled by a counter of fresh handles plus a
  record of each fresh block's requested byte size and alignment;
* the member fields `m_all_pointers`, `m_pointer_stacks`,
  `m_array_length` are carried explicitly in a state structure, and each
  member function becomes a state-passing function.
-/

namespace BLI

/-- `2 ^ 32`: one more than the largest value of the C++ `uint` type. -/
def U32 : Nat := 2 ^ 32

/-- An abstract pointer handle standing for a `void *`. -/
abbrev Ptr := Nat

/-- Modelled from the spec: `SmallStack` comes from `"BLI_small_stack.hpp"`,
which is included by the allocator header but is not among the reviewed
sources.  The spec describes each free list as a stack where the
most-recently-released buffer is reused first (LIFO).  A stack is a list
whose head is the top. -/
abbrev SmallStack (α : Type) := List α

/-- `SmallStack::push`: the pushed element becomes the top. -/
def SmallStack.push (s : SmallStack α) (x : α) : SmallStack α := x :: s

/-- `SmallStack::size`. -/
def SmallStack.size (s : SmallStack α) : Nat := List.length s

/-- `SmallStack::pop`, fallible form: the top element together with the
remaining stack, or `none` on an empty stack (the source only calls `pop`
after checking `size() > 0`). -/
def SmallStack.pop? : SmallStack α → Option (α × SmallStack α)
  | x :: s => some (x, s)
  | [] => none

/-- The state of one `FixedArrayAllocator` instance.

`m_all_pointers`, `m_pointer_stacks` and `m_array_length` are the data
members of the C++ class (the two `SmallVector` members become lists).
`next_fresh` and `blocks` model the heap behind `MEM_mallocN_aligned`:
a fresh allocation returns the handle `next_fresh`, and `blocks` records
`(handle, requested byte size, requested alignment)` of every fresh block,
in allocation order.  Modelled from the spec: `MEM_mallocN_aligned` itself
is not among the reviewed sources; the spec states a fresh allocation is a
new block "of exactly `N*S` bytes, aligned to a fixed power-of-two
boundary (64 bytes)". -/
structure FixedArrayAllocator where
  m_all_pointers : List Ptr
  m_pointer_stacks : List (SmallStack Ptr)
  m_array_length : Nat
  next_fresh : Ptr
  blocks : List (Ptr × Nat × Nat)
deriving Repr, DecidableEq

/-- The constructor `FixedArrayAllocator(uint array_length)`: it only
stores the length (as the `uint` value, hence modulo `2 ^ 32`); no
validation of any kind is performed.  Both containers start empty and no
block has been allocated. -/
def FixedArrayAllocator.create (array_length : Nat) : FixedArrayAllocator :=
  { m_all_pointers := []
    m_pointer_stacks := []
    m_array_length := array_length % U32
    next_fresh := 0
    blocks := [] }

/-- `array_size()`: read-only accessor of `m_array_length`. -/
def FixedArrayAllocator.array_size (a : FixedArrayAllocator) : Nat :=
  a.m_array_length

/-- The condition checked by `BLI_assert(element_size > 0)` at the top of
`stack_for_element_size`. -/
def stack_assert (element_size : Nat) : Prop := element_size > 0

/-- The index `element_size - 1` computed in `uint` arithmetic: it wraps
to `2 ^ 32 - 1` when `element_size = 0` and equals `element_size - 1`
for every `uint` value `element_size ≥ 1`. -/
def laneIndex (element_size : Nat) : Nat := (element_size + (U32 - 1)) % U32

/-- `SmallVector::append_n_times({}, n)`: appends `n` empty stacks. -/
def append_n_times (v : List (SmallStack Ptr)) (n : Nat) :
    List (SmallStack Ptr) :=
  v ++ List.replicate n []

/-- The growth step of `stack_for_element_size`: when `index` is not yet a
valid position, append `index - size + 1` empty stacks so that it is. -/
def grow_stacks (sv : List (SmallStack Ptr)) (index : Nat) :
    List (SmallStack Ptr) :=
  if index ≥ sv.length then append_n_times sv (index - sv.length + 1)
  else sv

/-- `stack_for_element_size(uint element_size)`: computes
`index = element_size - 1` (in `uint` arithmetic), grows
`m_pointer_stacks` when needed, and designates the stack at `index`.
The returned reference becomes the pair (index, state after growth). -/
def FixedArrayAllocator.stack_for_element_size (a : FixedArrayAllocator)
    (element_size : Nat) : Nat × FixedArrayAllocator :=
  (laneIndex element_size,
   { a with m_pointer_stacks := grow_stacks a.m_pointer_stacks (laneIndex element_size) })

/-- `allocate_array(uint element_size)`: pops the free stack for
`element_size` when it is non-empty; otherwise calls
`MEM_mallocN_aligned(m_array_length * element_size, 64, __func__)`
(the `uint` product wraps modulo `2 ^ 32`), appends the fresh pointer to
`m_all_pointers`, and returns it. -/
def FixedArrayAllocator.allocate_array (a0 : FixedArrayAllocator)
    (element_size : Nat) : Ptr × FixedArrayAllocator :=
  let g := a0.stack_for_element_size element_size
  match SmallStack.pop? (List.getD g.snd.m_pointer_stacks g.fst []) with
  | some q =>
      (q.fst, { g.snd with m_pointer_stacks := g.snd.m_pointer_stacks.set g.fst q.snd })
  | none =>
      (g.snd.next_fresh,
       { g.snd with
          next_fresh := g.snd.next_fresh + 1
          blocks := g.snd.blocks ++
            [(g.snd.next_fresh, g.snd.m_array_length * element_size % U32, 64)]
          m_all_pointers := g.snd.m_all_pointers ++ [g.snd.next_fresh] })

/-- `deallocate_array(void *ptr, uint element_size)`: pushes `ptr` onto
the free stack for `element_size`. -/
def FixedArrayAllocator.deallocate_array (a0 : FixedArrayAllocator)
    (ptr : Ptr) (element_size : Nat) : FixedArrayAllocator :=
  let g := a0.stack_for_element_size element_size
  { g.snd with
     m_pointer_stacks :=
       g.snd.m_pointer_stacks.set g.fst
         (SmallStack.push (List.getD g.snd.m_pointer_stacks g.fst []) ptr) }

/-- The destructor `~FixedArrayAllocator()`: calls `MEM_freeN` on each
pointer of `m_all_pointers`, in order.  This list is exactly what gets
freed at teardown. -/
def FixedArrayAllocator.destructor_frees (a : FixedArrayAllocator) : List Ptr :=
  a.m_all_pointers

/-- The contents of the free-list lane at dense index `i`
(`m_pointer_stacks[i]`, or the empty stack when the lane does not exist
yet — a lane that was never grown behaves like an empty one). -/
def FixedArrayAllocator.laneAt (a : FixedArrayAllocator) (i : Nat) : List Ptr :=
  List.getD a.m_pointer_stacks i []

/-- The contents of the free-list lane that `element_size` selects. -/
def FixedArrayAllocator.lane (a : FixedArrayAllocator) (element_size : Nat) :
    List Ptr :=
  a.laneAt (laneIndex element_size)

/-- The state of one `ScopedAllocation` handle: `m_ptr` is `none` exactly
when the C++ member is `nullptr`.  The `m_allocator` reference is passed
explicitly to the operations that use it. -/
structure ScopedAllocation where
  m_ptr : Option Ptr
  m_element_size : Nat
deriving Repr, DecidableEq

/-- The move constructor `ScopedAllocation(ScopedAllocation &&other)`:
the new handle copies `other`'s pointer and element size, and
`other.m_ptr` becomes `nullptr`.  The pair is (constructed target,
`other` after the move). -/
def ScopedAllocation.move_from (other : ScopedAllocation) :
    ScopedAllocation × ScopedAllocation :=
  ({ m_ptr := other.m_ptr, m_element_size := other.m_element_size },
   { other with m_ptr := none })

/-- The destructor `~ScopedAllocation()`: when `m_ptr != nullptr`, calls
`m_allocator.deallocate_array(m_ptr, m_element_size)` on the referenced
allocator `a`; otherwise does nothing. -/
def ScopedAllocation.dtor (s : ScopedAllocation) (a : FixedArrayAllocator) :
    FixedArrayAllocator :=
  match s.m_ptr with
  | none => a
  | some p => a.deallocate_array p s.m_element_size

/-- The move assignment `operator=(ScopedAllocation &&other)`: first runs
the destructor on the current handle (`this->~ScopedAllocation()`), then
placement-news a move-constructed copy of `other` into `this`.  The
result is (new `this`, `other` after the move, allocator after the
destructor ran), where `a` is the allocator referenced by `this`. -/
def ScopedAllocation.move_assign (target other : ScopedAllocation)
    (a : FixedArrayAllocator) :
    ScopedAllocation × ScopedAllocation × FixedArrayAllocator :=
  ((ScopedAllocation.move_from other).fst,
   (ScopedAllocation.move_from other).snd,
   target.dtor a)

/-- `allocate_array_scoped(uint element_size)`: allocates and wraps the
pointer in a holding `ScopedAllocation` recording `element_size`. -/
def FixedArrayAllocator.allocate_array_scoped (a : FixedArrayAllocator)
    (element_size : Nat) : ScopedAllocation × FixedArrayAllocator :=
  ({ m_ptr := some (a.allocate_array element_size).fst
     m_element_size := element_size },
   (a.allocate_array element_size).snd)

/-- One client call to the allocator, for reasoning about whole call
sequences: either an `allocate_array` (its result is determined by the
state) or a `deallocate_array` of a given pointer. -/
inductive AllocOp where
  | alloc (element_size : Nat)
  | dealloc (ptr : Ptr) (element_size : Nat)
deriving Repr, DecidableEq

/-- Runs a sequence of calls against an allocator state. -/
def runOps (a : FixedArrayAllocator) : List AllocOp → FixedArrayAllocator
  | [] => a
  | AllocOp.alloc s :: ops => runOps (a.allocate_array s).snd ops
  | AllocOp.dealloc p s :: ops => runOps (a.deallocate_array p s) ops

/-- `true` when a call is not a deallocation of `buf` under a size other
than `s1`. -/
def AllocOp.okDealloc (buf : Ptr) (s1 : Nat) : AllocOp → Bool
  | AllocOp.dealloc p s => !(p == buf) || (s == s1)
  | _ => true

/-- `true` when every deallocation of `buf` in the sequence uses element
size `s1`. -/
def onlyUnder (buf : Ptr) (s1 : Nat) (ops : List AllocOp) : Bool :=
  List.all ops (AllocOp.okDealloc buf s1)

/-- The documented caller obligation on a call sequence: every pointer
passed to `deallocate_array` is one that already exists on the modelled
heap at that time (it was returned by an earlier allocation), so a fresh
block is never the same pointer as one sitting in a free list. -/
def disciplined (a : FixedArrayAllocator) : List AllocOp → Bool
  | [] => true
  | AllocOp.alloc s :: ops => disciplined (a.allocate_array s).snd ops
  | AllocOp.dealloc p s :: ops =>
      decide (p < a.next_fresh) && disciplined (a.deallocate_array p s) ops

/-- The registration invariant of an allocator state: the master list
`m_all_pointers` holds exactly the fresh heap handles handed out so far,
each once, in allocation order. -/
def allRegistered (a : FixedArrayAllocator) : Prop :=
  a.m_all_pointers = List.range a.next_fresh

/-! ### Helper lemmas about `List.getD`, growth and the lane operations -/

theorem getD_append_replicate_nil (l : List (SmallStack Ptr)) (n j : Nat) :
    List.getD (l ++ List.replicate n ([] : List Ptr)) j [] = List.getD l j [] := by
  induction l generalizing j with
  | nil =>
    simp only [List.nil_append, List.getD_nil]
    induction n generalizing j with
    | zero => simp
    | succ n ih =>
      cases j with
      | zero => simp [List.replicate_succ]
      | succ j => simp [List.replicate_succ]
  | cons x l ih =>
    cases j with
    | zero => simp
    | succ j => simpa using ih j

theorem getD_set_self {α : Type} (l : List α) (i : Nat) (x d : α)
    (h : i < l.length) : List.getD (l.set i x) i d = x := by
  induction l generalizing i with
  | nil => simp at h
  | cons y l ih =>
    cases i with
    | zero => simp
    | succ i => simpa using ih i (by simpa using h)

theorem getD_set_ne {α : Type} (l : List α) (i j : Nat) (x d : α)
    (h : i ≠ j) : List.getD (l.set i x) j d = List.getD l j d := by
  induction l generalizing i j with
  | nil => simp
  | cons y l ih =>
    cases i with
    | zero => cases j with
      | zero => exact absurd rfl h
      | succ j => simp
    | succ i => cases j with
      | zero => simp
      | succ j => simpa using ih i j (fun hh => h (by rw [hh]))

theorem lt_length_grow (sv : List (SmallStack Ptr)) (index : Nat) :
    index < (grow_stacks sv index).length := by
  unfold grow_stacks append_n_times
  split
  · simp only [List.length_append, List.length_replicate]
    omega
  · omega

theorem getD_grow (sv : List (SmallStack Ptr)) (index j : Nat) :
    List.getD (grow_stacks sv index) j [] = List.getD sv j [] := by
  unfold grow_stacks
  split
  · exact getD_append_replicate_nil sv _ j
  · rfl

theorem grow_eq_of_lt (sv : List (SmallStack Ptr)) (index : Nat)
    (h : index < sv.length) : grow_stacks sv index = sv := by
  simp [grow_stacks, Nat.not_le.mpr h]

theorem length_grow_of_le (sv : List (SmallStack Ptr)) (index : Nat)
    (h : sv.length ≤ index) : (grow_stacks sv index).length = index + 1 := by
  simp only [grow_stacks, append_n_times, ge_iff_le, h, if_true,
    List.length_append, List.length_replicate]
  omega

theorem U32_eq : U32 = 4294967296 := by norm_num [U32]

theorem laneIndex_eq (s : Nat) (h1 : 1 ≤ s) (h2 : s < U32) :
    laneIndex s = s - 1 := by
  rw [U32_eq] at h2
  unfold laneIndex
  rw [U32_eq]
  omega

theorem laneIndex_ne (s1 s2 : Nat) (h1 : 1 ≤ s1) (h1w : s1 < U32)
    (h2 : 1 ≤ s2) (h2w : s2 < U32) (hne : s1 ≠ s2) :
    laneIndex s1 ≠ laneIndex s2 := by
  rw [laneIndex_eq s1 h1 h1w, laneIndex_eq s2 h2 h2w]
  omega

theorem deallocate_lane_self (a : FixedArrayAllocator) (p : Ptr) (s : Nat) :
    (a.deallocate_array p s).lane s = p :: a.lane s := by
  simp only [FixedArrayAllocator.deallocate_array,
    FixedArrayAllocator.stack_for_element_size, FixedArrayAllocator.lane,
    FixedArrayAllocator.laneAt, SmallStack.push]
  rw [getD_set_self _ _ _ _ (lt_length_grow _ _), getD_grow]

theorem deallocate_laneAt_other (a : FixedArrayAllocator) (p : Ptr) (s i : Nat)
    (h : i ≠ laneIndex s) : (a.deallocate_array p s).laneAt i = a.laneAt i := by
  simp only [FixedArrayAllocator.deallocate_array,
    FixedArrayAllocator.stack_for_element_size, FixedArrayAllocator.laneAt,
    SmallStack.push]
  rw [getD_set_ne _ _ _ _ _ (fun hh => h hh.symm), getD_grow]

theorem deallocate_m_all (a : FixedArrayAllocator) (p : Ptr) (s : Nat) :
    (a.deallocate_array p s).m_all_pointers = a.m_all_pointers := rfl

theorem deallocate_m_array_length (a : FixedArrayAllocator) (p : Ptr) (s : Nat) :
    (a.deallocate_array p s).m_array_length = a.m_array_length := rfl

theorem deallocate_next_fresh (a : FixedArrayAllocator) (p : Ptr) (s : Nat) :
    (a.deallocate_array p s).next_fresh = a.next_fresh := rfl

theorem deallocate_blocks (a : FixedArrayAllocator) (p : Ptr) (s : Nat) :
    (a.deallocate_array p s).blocks = a.blocks := rfl

theorem allocate_of_lane_nil (a : FixedArrayAllocator) (s : Nat)
    (h : a.lane s = []) :
    a.allocate_array s =
      (a.next_fresh,
       { a with
          m_pointer_stacks := grow_stacks a.m_pointer_stacks (laneIndex s)
          next_fresh := a.next_fresh + 1
          blocks := a.blocks ++ [(a.next_fresh, a.m_array_length * s % U32, 64)]
          m_all_pointers := a.m_all_pointers ++ [a.next_fresh] }) := by
  have hl : List.getD (grow_stacks a.m_pointer_stacks (laneIndex s))
      (laneIndex s) [] = [] := by
    rw [getD_grow]; exact h
  simp only [FixedArrayAllocator.allocate_array,
    FixedArrayAllocator.stack_for_element_size, hl, SmallStack.pop?]

theorem allocate_of_lane_cons (a : FixedArrayAllocator) (s : Nat) (q : Ptr)
    (rest : List Ptr) (h : a.lane s = q :: rest) :
    a.allocate_array s =
      (q, { a with m_pointer_stacks :=
              (grow_stacks a.m_pointer_stacks (laneIndex s)).set (laneIndex s) rest }) := by
  have hl : List.getD (grow_stacks a.m_pointer_stacks (laneIndex s))
      (laneIndex s) [] = q :: rest := by
    rw [getD_grow]; exact h
  simp only [FixedArrayAllocator.allocate_array,
    FixedArrayAllocator.stack_for_element_size, hl, SmallStack.pop?]

theorem deallocate_laneAt_self (a : FixedArrayAllocator) (p : Ptr) (s : Nat) :
    (a.deallocate_array p s).laneAt (laneIndex s) = p :: a.laneAt (laneIndex s) :=
  deallocate_lane_self a p s

theorem allocate_snd_lane_of_cons (a : FixedArrayAllocator) (s : Nat) (q : Ptr)
    (rest : List Ptr) (h : a.lane s = q :: rest) :
    ((a.allocate_array s).snd).lane s = rest := by
  rw [allocate_of_lane_cons a s q rest h]
  simp only [FixedArrayAllocator.lane, FixedArrayAllocator.laneAt]
  exact getD_set_self _ _ _ _ (lt_length_grow _ _)

theorem laneAt_allocate_mem (a : FixedArrayAllocator) (s i : Nat) (x : Ptr)
    (hx : x ∈ ((a.allocate_array s).snd).laneAt i) : x ∈ a.laneAt i := by
  cases h : a.lane s with
  | nil =>
    rw [allocate_of_lane_nil a s h] at hx
    simp only [FixedArrayAllocator.laneAt] at hx ⊢
    rwa [getD_grow] at hx
  | cons q rest =>
    rw [allocate_of_lane_cons a s q rest h] at hx
    simp only [FixedArrayAllocator.laneAt] at hx ⊢
    by_cases hi : i = laneIndex s
    · rw [hi] at hx ⊢
      rw [getD_set_self _ _ _ _ (lt_length_grow _ _)] at hx
      have h' : List.getD a.m_pointer_stacks (laneIndex s) [] = q :: rest := h
      rw [h']
      exact List.mem_cons_of_mem q hx
    · rwa [getD_set_ne _ _ _ _ _ (fun hh => hi hh.symm), getD_grow] at hx

theorem allocate_fst_mem_or_fresh (a : FixedArrayAllocator) (s : Nat) :
    (a.allocate_array s).fst ∈ a.lane s ∨ (a.allocate_array s).fst = a.next_fresh := by
  cases h : a.lane s with
  | nil => right; rw [allocate_of_lane_nil a s h]
  | cons q rest =>
    left
    rw [allocate_of_lane_cons a s q rest h]
    exact List.mem_cons_self q rest

theorem next_fresh_le_allocate (a : FixedArrayAllocator) (s : Nat) :
    a.next_fresh ≤ ((a.allocate_array s).snd).next_fresh := by
  cases h : a.lane s with
  | nil => rw [allocate_of_lane_nil a s h]; exact Nat.le_succ _
  | cons q rest => rw [allocate_of_lane_cons a s q rest h]

theorem m_all_range_allocate (a : FixedArrayAllocator) (s : Nat)
    (h : a.m_all_pointers = List.range a.next_fresh) :
    ((a.allocate_array s).snd).m_all_pointers
      = List.range ((a.allocate_array s).snd).next_fresh := by
  cases hl : a.lane s with
  | nil => rw [allocate_of_lane_nil a s hl]; simp [h, List.range_succ]
  | cons q rest => rw [allocate_of_lane_cons a s q rest hl]; exact h

theorem runOps_nil (a : FixedArrayAllocator) : runOps a [] = a := rfl

theorem runOps_alloc (a : FixedArrayAllocator) (s : Nat) (ops : List AllocOp) :
    runOps a (AllocOp.alloc s :: ops) = runOps (a.allocate_array s).snd ops := rfl

theorem runOps_dealloc (a : FixedArrayAllocator) (p : Ptr) (s : Nat)
    (ops : List AllocOp) :
    runOps a (AllocOp.dealloc p s :: ops) = runOps (a.deallocate_array p s) ops := rfl

theorem next_fresh_le_runOps (ops : List AllocOp) : ∀ a : FixedArrayAllocator,
    a.next_fresh ≤ (runOps a ops).next_fresh := by
  induction ops with
  | nil => intro a; exact le_rfl
  | cons op ops ih =>
    intro a
    cases op with
    | alloc s =>
      rw [runOps_alloc]
      exact le_trans (next_fresh_le_allocate a s) (ih _)
    | dealloc p s =>
      rw [runOps_dealloc]
      have h := ih (a.deallocate_array p s)
      rwa [deallocate_next_fresh] at h

theorem m_all_range_runOps (ops : List AllocOp) : ∀ a : FixedArrayAllocator,
    a.m_all_pointers = List.range a.next_fresh →
    (runOps a ops).m_all_pointers = List.range (runOps a ops).next_fresh := by
  induction ops with
  | nil => intro a h; exact h
  | cons op ops ih =>
    intro a h
    cases op with
    | alloc s =>
      rw [runOps_alloc]
      exact ih _ (m_all_range_allocate a s h)
    | dealloc p s =>
      rw [runOps_dealloc]
      refine ih _ ?_
      rw [deallocate_m_all, deallocate_next_fresh]
      exact h

theorem notin_laneAt_runOps (ops : List AllocOp) :
    ∀ (a : FixedArrayAllocator) (buf : Ptr) (s1 i : Nat),
    onlyUnder buf s1 ops = true → i ≠ laneIndex s1 →
    buf ∉ a.laneAt i → buf ∉ (runOps a ops).laneAt i := by
  induction ops with
  | nil => intro a buf s1 i _ _ h; exact h
  | cons op ops ih =>
    intro a buf s1 i honly hi h
    have hsplit : AllocOp.okDealloc buf s1 op = true ∧ onlyUnder buf s1 ops = true := by
      simpa only [onlyUnder, List.all_cons, Bool.and_eq_true] using honly
    cases op with
    | alloc s =>
      rw [runOps_alloc]
      exact ih _ buf s1 i hsplit.2 hi (fun hx => h (laneAt_allocate_mem a s i buf hx))
    | dealloc p s =>
      rw [runOps_dealloc]
      refine ih _ buf s1 i hsplit.2 hi ?_
      by_cases his : i = laneIndex s
      · rw [his, deallocate_laneAt_self]
        intro hx
        rcases List.mem_cons.mp hx with hx | hx
        · have hok := hsplit.1
          simp only [AllocOp.okDealloc, Bool.or_eq_true, Bool.not_eq_true',
            beq_iff_eq, beq_eq_false_iff_ne] at hok
          rcases hok with hne | hss
          · exact hne hx.symm
          · exact hi (his.trans (by rw [hss]))
        · rw [← his] at hx
          exact h hx
      · rw [deallocate_laneAt_other a p s i his]
        exact h

theorem dealloc_mem_lt_runOps (ops : List AllocOp) :
    ∀ (a : FixedArrayAllocator) (buf : Ptr) (s1 : Nat),
    disciplined a ops = true → AllocOp.dealloc buf s1 ∈ ops →
    buf < (runOps a ops).next_fresh := by
  induction ops with
  | nil => intro a buf s1 _ hmem; simp at hmem
  | cons op ops ih =>
    intro a buf s1 hd hmem
    cases op with
    | alloc s =>
      rw [runOps_alloc]
      have hd' : disciplined (a.allocate_array s).snd ops = true := by
        simpa only [disciplined] using hd
      have hmem' : AllocOp.dealloc buf s1 ∈ ops := by
        rcases List.mem_cons.mp hmem with hh | hh
        · exact absurd hh (by simp)
        · exact hh
      exact ih _ buf s1 hd' hmem'
    | dealloc p s =>
      rw [runOps_dealloc]
      have hd' : buf < (runOps (a.deallocate_array p s) ops).next_fresh ∨
          (p < a.next_fresh ∧ disciplined (a.deallocate_array p s) ops = true) := by
        right
        simpa only [disciplined, Bool.and_eq_true, decide_eq_true_eq] using hd
      rcases hd' with hdone | ⟨hplt, hrest⟩
      · exact hdone
      rcases List.mem_cons.mp hmem with hh | hh
      · have hb : buf = p ∧ s1 = s := by simpa using hh
        calc buf < a.next_fresh := hb.1 ▸ hplt
          _ = (a.deallocate_array p s).next_fresh := (deallocate_next_fresh a p s).symm
          _ ≤ (runOps (a.deallocate_array p s) ops).next_fresh := next_fresh_le_runOps ops _
      · exact ih _ buf s1 hrest hh

/-! ### The claims -/

/-- C1: for every allocator state, buffer and element size `S ≥ 1`, an
`allocate_array S` right after `deallocate_array buf S` returns exactly
`buf`; and in general the free-list lane for `S` is a LIFO stack: whenever
the lane is non-empty, `allocate_array S` pops and returns its most
recently pushed (top) element, leaving the rest of the lane. -/
theorem claim_C1_lifo_reuse (a : FixedArrayAllocator) (buf : Ptr) (S : Nat)
    (_hS : 1 ≤ S) :
    ((a.deallocate_array buf S).allocate_array S).fst = buf ∧
    ∀ q rest, a.lane S = q :: rest →
      (a.allocate_array S).fst = q ∧ ((a.allocate_array S).snd).lane S = rest := by
  constructor
  · have h := deallocate_lane_self a buf S
    rw [allocate_of_lane_cons _ S buf (a.lane S) h]
  · intro q rest h
    constructor
    · rw [allocate_of_lane_cons a S q rest h]
    · exact allocate_snd_lane_of_cons a S q rest h

/-- Witness for C1 at a concrete input: allocator of length 10, buffer 7,
element size 4. -/
theorem claim_C1_lifo_reuse_witness :
    (((FixedArrayAllocator.create 10).deallocate_array 7 4).allocate_array 4).fst = 7 :=
  (claim_C1_lifo_reuse (FixedArrayAllocator.create 10) 7 4 (by decide)).1

/-- C2 counterexample: with configured length `N = 2 ^ 31` and element size
`S = 2`, the `uint` product `m_array_length * element_size` wraps modulo
`2 ^ 32` to `0`, so the fresh block is requested with capacity `0` bytes —
not the exact integer product `2 ^ 31 * 2 = 2 ^ 32` the claim states. -/
theorem claim_C2_counterexample :
    ((FixedArrayAllocator.create (2 ^ 31)).allocate_array 2).snd.blocks
      ≠ [(0, 2 ^ 31 * 2, 64)] := by decide

/-- C2 (amended): a buffer returned by `allocate_array S` when the free-list
lane for `S` is empty is a fresh block: it is the next fresh heap handle,
the block is requested with capacity `(N * S) % 2 ^ 32` bytes (the `uint`
product, which wraps) and 64-byte alignment, and the handle is registered
once at the end of the master list. -/
theorem claim_C2_fresh_block (a : FixedArrayAllocator) (S : Nat) (_hS : 1 ≤ S)
    (h : a.lane S = []) :
    (a.allocate_array S).fst = a.next_fresh ∧
    ((a.allocate_array S).snd).blocks
      = a.blocks ++ [(a.next_fresh, a.m_array_length * S % U32, 64)] ∧
    ((a.allocate_array S).snd).m_all_pointers
      = a.m_all_pointers ++ [a.next_fresh] := by
  rw [allocate_of_lane_nil a S h]
  exact ⟨rfl, rfl, rfl⟩

/-- Witness for C2 (amended) at a concrete input: allocator of length 100,
element size 4, with its (empty) lane untouched. -/
theorem claim_C2_fresh_block_witness :
    ((FixedArrayAllocator.create 100).allocate_array 4).snd.blocks
      = (FixedArrayAllocator.create 100).blocks
        ++ [((FixedArrayAllocator.create 100).next_fresh,
             (FixedArrayAllocator.create 100).m_array_length * 4 % U32, 64)] :=
  (claim_C2_fresh_block (FixedArrayAllocator.create 100) 4 (by decide) (by decide)).2.1

/-- C5 counterexample: constructing with `array_length = 0` does not fail —
the constructor performs no validation at all: it yields an ordinary
instance bound to 0 elements per array, on which allocation works normally
(returning a fresh zero-byte block). -/
theorem claim_C5_counterexample :
    (FixedArrayAllocator.create 0).array_size = 0 ∧
    ((FixedArrayAllocator.create 0).allocate_array 4).fst = 0 ∧
    ((FixedArrayAllocator.create 0).allocate_array 4).snd.blocks = [(0, 0, 64)] := by
  decide

/-- C5 (amended): construction never fails and checks nothing:
for every `uint` length `N`, including `N = 0`, it succeeds and binds the
instance to exactly `N` elements per array, with an empty master list and
no free-list lanes. -/
theorem claim_C5_construct (N : Nat) (h : N < U32) :
    (FixedArrayAllocator.create N).array_size = N ∧
    (FixedArrayAllocator.create N).m_all_pointers = [] ∧
    (FixedArrayAllocator.create N).m_pointer_stacks = [] := by
  refine ⟨?_, rfl, rfl⟩
  simp [FixedArrayAllocator.create, FixedArrayAllocator.array_size,
    Nat.mod_eq_of_lt h]

/-- Witness for C5 (amended) at the contested input `N = 0`. -/
theorem claim_C5_construct_witness :
    (FixedArrayAllocator.create 0).array_size = 0 ∧
    (FixedArrayAllocator.create 0).m_all_pointers = [] ∧
    (FixedArrayAllocator.create 0).m_pointer_stacks = [] :=
  claim_C5_construct 0 (by decide)

/-- C6: `allocate_array` and `deallocate_array` both go through
`stack_for_element_size`, whose `BLI_assert(element_size > 0)` condition is
`stack_assert`; under the precondition `S ≥ 1` (with `S` a `uint` value)
the assertion holds, the index `S - 1` does not wrap, and after the lane
vector is grown the access at `S - 1` is in bounds — so the
assertion-failure branch is unreachable for every `S ≥ 1`. -/
theorem claim_C6_assert_safety (S : Nat) (sv : List (SmallStack Ptr))
    (h1 : 1 ≤ S) (h2 : S < U32) :
    stack_assert S ∧ laneIndex S = S - 1 ∧
    laneIndex S < (grow_stacks sv (laneIndex S)).length :=
  ⟨h1, laneIndex_eq S h1 h2, lt_length_grow sv _⟩

/-- Witness for C6 at a concrete input: element size 4 against an empty
lane vector. -/
theorem claim_C6_assert_safety_witness :
    stack_assert 4 ∧ laneIndex 4 = 3 ∧
    laneIndex 4 < (grow_stacks [] (laneIndex 4)).length :=
  claim_C6_assert_safety 4 [] (by decide) (by decide)

/-- C7: lane indexing: for `S ≥ 1` (a `uint` value) the lane designated by
`stack_for_element_size` is the dense index `S - 1`; when the lane sequence
is too short it auto-grows to exactly `S` lanes, every newly created lane
(intermediate ones included) holds the empty free list, previously existing
lanes are unchanged, and when no growth is needed the sequence stays as it
was. -/
theorem claim_C7_lane_indexing (a : FixedArrayAllocator) (S : Nat)
    (h1 : 1 ≤ S) (h2 : S < U32) :
    (a.stack_for_element_size S).fst = S - 1 ∧
    (a.stack_for_element_size S).snd.m_pointer_stacks
      = grow_stacks a.m_pointer_stacks (S - 1) ∧
    (a.m_pointer_stacks.length ≤ S - 1 →
      (grow_stacks a.m_pointer_stacks (S - 1)).length = S) ∧
    (∀ j, a.m_pointer_stacks.length ≤ j →
      List.getD (grow_stacks a.m_pointer_stacks (S - 1)) j [] = []) ∧
    (∀ j, List.getD (grow_stacks a.m_pointer_stacks (S - 1)) j []
      = List.getD a.m_pointer_stacks j []) ∧
    (S - 1 < a.m_pointer_stacks.length →
      grow_stacks a.m_pointer_stacks (S - 1) = a.m_pointer_stacks) := by
  have hidx := laneIndex_eq S h1 h2
  refine ⟨?_, ?_, ?_, ?_, fun j => getD_grow _ _ j, grow_eq_of_lt _ _⟩
  · simp [FixedArrayAllocator.stack_for_element_size, hidx]
  · simp [FixedArrayAllocator.stack_for_element_size, hidx]
  · intro h
    rw [length_grow_of_le _ _ h]
    omega
  · intro j hj
    rw [getD_grow]
    exact List.getD_eq_default _ _ hj

/-- Witness for C7 at a concrete input: allocator of length 5, element
size 3. -/
theorem claim_C7_lane_indexing_witness :
    ((FixedArrayAllocator.create 5).stack_for_element_size 3).fst = 2 :=
  (claim_C7_lane_indexing (FixedArrayAllocator.create 5) 3 (by decide) (by decide)).1

/-- C3: lane isolation.  Run any call sequence from a fresh instance where
(i) every pointer passed to `deallocate_array` already exists on the heap
(the documented caller obligation) and (ii) the buffer `buf` is only ever
deallocated under element size `S1`.  Then an `allocate_array S2` with
`S2 ≠ S1` (both sizes ≥ 1, both `uint` values) never returns `buf`:
free-list contents never cross between size lanes, because the lane is a
pure function of the element byte size. -/
theorem claim_C3_lane_isolation (N : Nat) (ops : List AllocOp) (buf : Ptr)
    (S1 S2 : Nat) (h11 : 1 ≤ S1) (h1w : S1 < U32) (h21 : 1 ≤ S2)
    (h2w : S2 < U32) (hne : S1 ≠ S2) (hmem : AllocOp.dealloc buf S1 ∈ ops)
    (honly : onlyUnder buf S1 ops = true)
    (hdisc : disciplined (FixedArrayAllocator.create N) ops = true) :
    ((runOps (FixedArrayAllocator.create N) ops).allocate_array S2).fst ≠ buf := by
  have hidx : laneIndex S2 ≠ laneIndex S1 :=
    (laneIndex_ne S1 S2 h11 h1w h21 h2w hne).symm
  have hnotin : buf ∉ (runOps (FixedArrayAllocator.create N) ops).laneAt (laneIndex S2) := by
    refine notin_laneAt_runOps ops _ buf S1 (laneIndex S2) honly hidx ?_
    simp [FixedArrayAllocator.create, FixedArrayAllocator.laneAt]
  have hlt : buf < (runOps (FixedArrayAllocator.create N) ops).next_fresh :=
    dealloc_mem_lt_runOps ops _ buf S1 hdisc hmem
  rcases allocate_fst_mem_or_fresh (runOps (FixedArrayAllocator.create N) ops) S2
    with hmemf | hfr
  · intro he
    rw [he] at hmemf
    exact hnotin hmemf
  · intro he
    rw [← he, hfr] at hlt
    exact lt_irrefl _ hlt

/-- Witness for C3 at a concrete input: allocate under size 4 (returns
handle 0), free it under size 4, then allocate under size 8 — the result is
not handle 0. -/
theorem claim_C3_lane_isolation_witness :
    ((runOps (FixedArrayAllocator.create 1)
        [AllocOp.alloc 4, AllocOp.dealloc 0 4]).allocate_array 8).fst ≠ 0 :=
  claim_C3_lane_isolation 1 [AllocOp.alloc 4, AllocOp.dealloc 0 4] 0 4 8
    (by decide) (by decide) (by decide) (by decide) (by decide) (by decide)
    (by decide) (by decide)

/-- C4: teardown completeness.  After any call sequence from a fresh
instance, the master list holds exactly the fresh heap handles handed out
so far (`allRegistered`); and in any state with that invariant: the
destructor frees exactly the master list; the master list has no
duplicates, so each ever-allocated buffer is freed exactly once and
nothing else is freed; an `allocate_array` that reuses a free-list buffer
appends nothing to the master list; an `allocate_array` that allocates
fresh appends its result exactly once (the result was not in the list
before); and `deallocate_array` never appends. -/
theorem claim_C4_teardown (N : Nat) (ops : List AllocOp) :
    allRegistered (runOps (FixedArrayAllocator.create N) ops) ∧
    ∀ a : FixedArrayAllocator, allRegistered a →
      a.destructor_frees = a.m_all_pointers ∧
      a.m_all_pointers.Nodup ∧
      (∀ p, List.count p a.destructor_frees
        = if p < a.next_fresh then 1 else 0) ∧
      (∀ s q rest, a.lane s = q :: rest →
        ((a.allocate_array s).snd).m_all_pointers = a.m_all_pointers) ∧
      (∀ s, a.lane s = [] →
        ((a.allocate_array s).snd).m_all_pointers
            = a.m_all_pointers ++ [(a.allocate_array s).fst] ∧
          (a.allocate_array s).fst ∉ a.m_all_pointers) ∧
      (∀ p s, (a.deallocate_array p s).m_all_pointers = a.m_all_pointers) := by
  constructor
  · exact m_all_range_runOps ops _ rfl
  intro a hreg
  refine ⟨rfl, ?_, ?_, ?_, ?_, fun p s => rfl⟩
  · rw [hreg]
    exact List.nodup_range _
  · intro p
    have hd : a.destructor_frees = List.range a.next_fresh := hreg
    rw [hd]
    by_cases hp : p < a.next_fresh
    · rw [if_pos hp]
      exact List.count_eq_one_of_mem (List.nodup_range _) (List.mem_range.mpr hp)
    · rw [if_neg hp]
      exact List.count_eq_zero_of_not_mem (fun hm => hp (List.mem_range.mp hm))
  · intro s q rest h
    rw [allocate_of_lane_cons a s q rest h]
  · intro s h
    rw [allocate_of_lane_nil a s h]
    refine ⟨rfl, ?_⟩
    rw [hreg]
    intro hm
    exact lt_irrefl _ (List.mem_range.mp hm)

/-- C8: moving a `ScopedAllocation` transfers the release obligation: the
move-constructed target holds the original buffer and element size, the
moved-from source holds no buffer, destroying the moved-from handle changes
nothing (no double return), and destroying the holding handle returns the
buffer to the lane of its recorded element size exactly once. -/
theorem claim_C8_move_transfer (s : ScopedAllocation) (p : Ptr)
    (h : s.m_ptr = some p) :
    (ScopedAllocation.move_from s).fst.m_ptr = some p ∧
    (ScopedAllocation.move_from s).fst.m_element_size = s.m_element_size ∧
    (ScopedAllocation.move_from s).snd.m_ptr = none ∧
    (∀ a : FixedArrayAllocator, ((ScopedAllocation.move_from s).snd).dtor a = a) ∧
    (∀ a : FixedArrayAllocator, ((ScopedAllocation.move_from s).fst).dtor a
      = a.deallocate_array p s.m_element_size) ∧
    (∀ a : FixedArrayAllocator,
      (((ScopedAllocation.move_from s).fst).dtor a).lane s.m_element_size
        = p :: a.lane s.m_element_size) := by
  refine ⟨h, rfl, rfl, fun a => rfl, ?_, ?_⟩
  · intro a
    simp [ScopedAllocation.move_from, ScopedAllocation.dtor, h]
  · intro a
    have hd : ((ScopedAllocation.move_from s).fst).dtor a
        = a.deallocate_array p s.m_element_size := by
      simp [ScopedAllocation.move_from, ScopedAllocation.dtor, h]
    rw [hd]
    exact deallocate_lane_self a p s.m_element_size

/-- Witness for C8 at a concrete input: a handle holding buffer 5 with
element size 8. -/
theorem claim_C8_move_transfer_witness :
    (ScopedAllocation.move_from ⟨some 5, 8⟩).fst.m_ptr = some 5 ∧
    (ScopedAllocation.move_from ⟨some 5, 8⟩).snd.m_ptr = none :=
  ⟨(claim_C8_move_transfer ⟨some 5, 8⟩ 5 rfl).1,
   (claim_C8_move_transfer ⟨some 5, 8⟩ 5 rfl).2.2.1⟩

/-- C9: frame property of `deallocate_array`: for any pointer `p` (from
this instance or not) and `uint` size `S ≥ 1`, it unconditionally pushes
`p` onto the lane for `S` and changes nothing else — every other lane, the
master list, the array length, and the heap model stay as they were; the
recycled pointer is returned by the next `allocate_array S`; and the
destructor's free list is unchanged, so a pointer never freshly allocated
by this instance is never freed by it. -/
theorem claim_C9_dealloc_frame (a : FixedArrayAllocator) (p : Ptr) (S : Nat)
    (_h1 : 1 ≤ S) (h2 : S < U32) :
    (a.deallocate_array p S).lane S = p :: a.lane S ∧
    (∀ S', 1 ≤ S' → S' < U32 → S' ≠ S →
      (a.deallocate_array p S).lane S' = a.lane S') ∧
    (a.deallocate_array p S).m_all_pointers = a.m_all_pointers ∧
    (a.deallocate_array p S).m_array_length = a.m_array_length ∧
    (a.deallocate_array p S).next_fresh = a.next_fresh ∧
    (a.deallocate_array p S).blocks = a.blocks ∧
    ((a.deallocate_array p S).allocate_array S).fst = p ∧
    (a.deallocate_array p S).destructor_frees = a.destructor_frees ∧
    (p ∉ a.m_all_pointers → p ∉ (a.deallocate_array p S).destructor_frees) := by
  refine ⟨deallocate_lane_self a p S, ?_, rfl, rfl, rfl, rfl, ?_, rfl, ?_⟩
  · intro S' hh1 hh2 hne
    exact deallocate_laneAt_other a p S (laneIndex S')
      (laneIndex_ne S' S hh1 hh2 _h1 h2 hne)
  · have h := deallocate_lane_self a p S
    rw [allocate_of_lane_cons _ S p (a.lane S) h]
  · intro hnot hmem
    exact hnot hmem

/-- Witness for C9 at a concrete input: a foreign pointer 9 freed under
size 2 into a fresh allocator of length 3, then returned by the next
allocation. -/
theorem claim_C9_dealloc_frame_witness :
    ((FixedArrayAllocator.create 3).deallocate_array 9 2).lane 2 = [9] ∧
    (((FixedArrayAllocator.create 3).deallocate_array 9 2).allocate_array 2).fst = 9 :=
  ⟨(claim_C9_dealloc_frame (FixedArrayAllocator.create 3) 9 2
      (by decide) (by decide)).1,
   (claim_C9_dealloc_frame (FixedArrayAllocator.create 3) 9 2
      (by decide) (by decide)).2.2.2.2.2.2.1⟩

/-- C10: move-assigning a `ScopedAllocation` onto a handle that still holds
a buffer first returns the target's buffer to the lane of its recorded
element size exactly once (through the destructor call), then adopts the
source's pointer and element size, and leaves the source holding no
buffer. -/
theorem claim_C10_move_assign (t s : ScopedAllocation) (q : Ptr)
    (a : FixedArrayAllocator) (h : t.m_ptr = some q) :
    (ScopedAllocation.move_assign t s a).snd.snd
      = a.deallocate_array q t.m_element_size ∧
    ((ScopedAllocation.move_assign t s a).snd.snd).lane t.m_element_size
      = q :: a.lane t.m_element_size ∧
    (ScopedAllocation.move_assign t s a).fst.m_ptr = s.m_ptr ∧
    (ScopedAllocation.move_assign t s a).fst.m_element_size = s.m_element_size ∧
    (ScopedAllocation.move_assign t s a).snd.fst.m_ptr = none := by
  have hd : (ScopedAllocation.move_assign t s a).snd.snd
      = a.deallocate_array q t.m_element_size := by
    simp [ScopedAllocation.move_assign, ScopedAllocation.dtor, h]
  refine ⟨hd, ?_, rfl, rfl, rfl⟩
  rw [hd]
  exact deallocate_lane_self a q t.m_element_size

/-- Witness for C10 at a concrete input: the target holds buffer 2 under
size 4, the source holds buffer 7 under size 8, against an allocator of
length 6. -/
theorem claim_C10_move_assign_witness :
    (ScopedAllocation.move_assign ⟨some 2, 4⟩ ⟨some 7, 8⟩
        (FixedArrayAllocator.create 6)).snd.snd
      = (FixedArrayAllocator.create 6).deallocate_array 2 4 ∧
    (ScopedAllocation.move_assign ⟨some 2, 4⟩ ⟨some 7, 8⟩
        (FixedArrayAllocator.create 6)).snd.fst.m_ptr = none :=
  ⟨(claim_C10_move_assign ⟨some 2, 4⟩ ⟨some 7, 8⟩ 2
      (FixedArrayAllocator.create 6) rfl).1,
   (claim_C10_move_assign ⟨some 2, 4⟩ ⟨some 7, 8⟩ 2
      (FixedArrayAllocator.create 6) rfl).2.2.2.2⟩

end BLI
